import Mathlib

/-!
Shallow embedding of `src/manual_experiment_tracking.py`.

The script is a linear pipeline: a driver loop calls `run_experiment` once
per configured `n_estimators` value (ids 1..N), each call writes a JSON log
artifact and a pickled model artifact into the experiment directory, the
driver then writes a summary JSON, and an aggregator re-reads every
`log_*.json` file from the directory into a table of
(experiment_id, n_estimators, accuracy) rows.

Modelling choices:
- Filenames are `List Char` (Python strings); the decimal rendering of the
  f-string `log_{experiment_id}.json` is `natChars`.
- The experiment directory is an association list from filename to file
  content, in creation order; `os.listdir` is its key list.  Writing an
  existing name overwrites in place, writing a fresh name appends.
- The external library calls (`load_iris`, `train_test_split`, `fit`,
  `score`) are out of scope of the repository and are modelled by an
  oracle `Env`: `score` returns the fraction of correctly classified
  samples on the held-out split, which for `load_iris` (150 samples) and
  `test_size=0.2` has 30 samples, so the score is `hits / 30` with
  `hits : Fin 31`.  `Env.fails` records whether the load/fit/score part of
  an invocation raises (those calls precede every write in the function).
- Exceptions are modelled with `Except Unit`; the filesystem state is
  returned alongside the outcome since files survive an aborted process.
- Python floats are modelled as exact rationals; JSON serialization
  (`json.dump` / `json.load`) is modelled as storing the JSON value itself,
  which is faithful for the round-trip behaviour the claims are about.
-/

/-- JSON values as produced and consumed by the script (ints and floats are
distinguished, as in Python). -/
inductive Json where
  | jint (n : Int)
  | jfloat (q : ℚ)
  | jstr (s : List Char)
  | jarr (xs : List Json)
  | jobj (fields : List (List Char × Json))

/-- The in-memory experiment record built at lines 32-36 of the source
(`log_data`), with the nesting flattened into named fields. -/
structure LogData where
  experiment_id : Nat
  n_estimators : Nat
  accuracy : ℚ
deriving DecidableEq, Repr

/-- Content of a file in the experiment directory: a JSON document or an
opaque pickled model (tagged with the run that produced it). -/
inductive File where
  | json (j : Json)
  | pickle (n_estimators : Nat) (experiment_id : Nat)

/-- The experiment directory: filenames with their contents, in creation
order. -/
abbrev FS := List (List Char × File)

/-- Decimal rendering of a natural number (the f-string conversion
`{experiment_id}`), via explicit fuel so that it is structural. -/
def natCharsAux : Nat → Nat → List Char
  | 0, _ => []
  | fuel + 1, n =>
    if n < 10 then [Nat.digitChar n]
    else natCharsAux fuel (n / 10) ++ [Nat.digitChar (n % 10)]

/-- Decimal rendering of a natural number. -/
def natChars (n : Nat) : List Char := natCharsAux (n + 1) n

/-- Filename of the per-experiment log artifact, from the f-string at
line 39: `log_{experiment_id}.json`. -/
def logName (experiment_id : Nat) : List Char :=
  "log_".data ++ natChars experiment_id ++ ".json".data

/-- Filename of the model artifact, from the f-string at line 43:
`model_{experiment_id}.pkl`. -/
def modelName (experiment_id : Nat) : List Char :=
  "model_".data ++ natChars experiment_id ++ ".pkl".data

/-- Filename of the combined summary artifact (line 54). -/
def summaryName : List Char := "experiment_summary.json".data

/-- Look a filename up in the directory (first match). -/
def fsRead : FS → List Char → Option File
  | [], _ => none
  | (n, f) :: rest, name => if n = name then some f else fsRead rest name

/-- Write a file: overwrite the entry of the same name in place, or append
a fresh entry at the end. -/
def fsWrite : FS → List Char → File → FS
  | [], name, f => [(name, f)]
  | (n, g) :: rest, name, f =>
    if n = name then (name, f) :: rest else (n, g) :: fsWrite rest name f

/-- The list of filenames in the directory (`os.listdir`). -/
def listdir (fs : FS) : List (List Char) := fs.map Prod.fst

/-- Oracle for the external library calls of one invocation of
`run_experiment`: `hits` is the number of correctly classified samples on
the 30-sample held-out split (so an accuracy of `hits / 30`), and `fails`
says whether loading, splitting, fitting or scoring raises.  Both are
indexed by `(n_estimators, experiment_id)`. -/
structure Env where
  hits : Nat → Nat → Fin 31
  fails : Nat → Nat → Bool

/-- The value returned by `model.score(X_test, y_test)` at line 28: the
fraction of the 30 held-out samples classified correctly. -/
def heldOutAccuracy (env : Env) (n_estimators experiment_id : Nat) : ℚ :=
  mkRat (env.hits n_estimators experiment_id) 30

/-- The JSON document built from a record, mirroring the dict literal at
lines 32-36 of the source. -/
def logJson (r : LogData) : Json :=
  .jobj [("experiment_id".data, .jint (r.experiment_id : Int)),
         ("parameters".data, .jobj [("n_estimators".data, .jint (r.n_estimators : Int))]),
         ("metrics".data, .jobj [("accuracy".data, .jfloat r.accuracy)])]

/-- The function `run_experiment` (lines 18-45): load, split, fit and score
(the oracle part, which may raise), build `log_data`, write the log
artifact, write the model artifact, return `log_data`. -/
def run_experiment (env : Env) (n_estimators experiment_id : Nat) (fs : FS) :
    Except Unit (LogData × FS) :=
  if env.fails n_estimators experiment_id then .error () else
  let accuracy := heldOutAccuracy env n_estimators experiment_id
  let log_data : LogData :=
    { experiment_id := experiment_id, n_estimators := n_estimators, accuracy := accuracy }
  let fs1 := fsWrite fs (logName experiment_id) (.json (logJson log_data))
  let fs2 := fsWrite fs1 (modelName experiment_id) (.pickle n_estimators experiment_id)
  .ok (log_data, fs2)

/-- The driver loop (lines 48-51): `for i, n_estimators in enumerate(values):
run_experiment(n_estimators, experiment_id=i+1)`, collecting the returned
records.  An uncaught exception stops the loop; the directory state at that
point is returned with the error. -/
def driverLoop (env : Env) : Nat → List Nat → FS → FS × Except Unit (List LogData)
  | _, [], fs => (fs, .ok [])
  | i, n_estimators :: rest, fs =>
    match run_experiment env n_estimators (i + 1) fs with
    | .error e => (fs, .error e)
    | .ok (log_data, fs1) =>
      match driverLoop env (i + 1) rest fs1 with
      | (fs2, .error e) => (fs2, .error e)
      | (fs2, .ok logs) => (fs2, .ok (log_data :: logs))

/-- The configured hyperparameter list of the script (line 49). -/
def configuredValues : List Nat := [10, 50, 100, 200, 500]

/-- Lines 48-55: run the driver loop over the configured values, then (only
if the loop completed) write the collected records as the summary
artifact. -/
def runScript (env : Env) (values : List Nat) (fs : FS) :
    FS × Except Unit (List LogData) :=
  match driverLoop env 0 values fs with
  | (fs1, .error e) => (fs1, .error e)
  | (fs1, .ok experiments) =>
    (fsWrite fs1 summaryName (.json (.jarr (experiments.map logJson))),
     .ok experiments)

/-- Boolean prefix test on character lists (`str.startswith`). -/
def isPrefixChars : List Char → List Char → Bool
  | [], _ => true
  | _ :: _, [] => false
  | a :: as, b :: bs => if a = b then isPrefixChars as bs else false

/-- Boolean suffix test on character lists (`str.endswith`). -/
def isSuffixChars (post s : List Char) : Bool :=
  isPrefixChars post.reverse s.reverse

/-- The aggregator filename filter at line 62:
`file_name.startswith('log_') and file_name.endswith('.json')`. -/
def isLogFileName (name : List Char) : Bool :=
  isPrefixChars "log_".data name && isSuffixChars ".json".data name

/-- Read a file and parse it as JSON (`json.load(open(...))`); `none` models
the exception raised when the file is missing or is not JSON. -/
def readJson (fs : FS) (name : List Char) : Option Json :=
  match fsRead fs name with
  | some (.json j) => some j
  | _ => none

/-- The re-read loop body accumulation (lines 60-64): load each selected
file in turn; any failure aborts the whole loop. -/
def readLogs (fs : FS) : List (List Char) → Option (List Json)
  | [] => some []
  | name :: rest =>
    match readJson fs name, readLogs fs rest with
    | some j, some js => some (j :: js)
    | _, _ => none

/-- Lines 60-64: the list `experiment_logs`, built by scanning the directory
listing, keeping names that match the `log_*.json` convention, and loading
each as JSON. -/
def experimentLogs (fs : FS) : Option (List Json) :=
  readLogs fs ((listdir fs).filter isLogFileName)

/-- Key lookup in the field list of a JSON object. -/
def fieldsLookup : List (List Char × Json) → List Char → Option Json
  | [], _ => none
  | (k1, v) :: rest, k => if k1 = k then some v else fieldsLookup rest k

/-- Python dict indexing `j[k]` on a JSON value; `none` models the exception
raised when `j` is not an object or lacks the key. -/
def jsonField : Json → List Char → Option Json
  | .jobj fields, k => fieldsLookup fields k
  | _, _ => none

/-- One row of the DataFrame built at lines 67-71:
`(log['experiment_id'], log['parameters']['n_estimators'],
log['metrics']['accuracy'])`. -/
def rowOfLog (j : Json) : Option (Json × Json × Json) :=
  match jsonField j "experiment_id".data,
        (jsonField j "parameters".data).bind (fun p => jsonField p "n_estimators".data),
        (jsonField j "metrics".data).bind (fun m => jsonField m "accuracy".data) with
  | some a, some b, some c => some (a, b, c)
  | _, _, _ => none

/-- Build all rows; any failing extraction aborts (an uncaught exception in
the comprehension). -/
def rowsOfLogs : List Json → Option (List (Json × Json × Json))
  | [] => some []
  | j :: js =>
    match rowOfLog j, rowsOfLogs js with
    | some row, some rows => some (row :: rows)
    | _, _ => none

/-- The tabular visualization input (lines 67-71): one row per re-read log
record. -/
def tableRows (fs : FS) : Option (List (Json × Json × Json)) :=
  match experimentLogs fs with
  | some js => rowsOfLogs js
  | none => none

/-- The keys of a JSON object, in order (empty for non-objects). -/
def objKeys : Json → List (List Char)
  | .jobj fields => fields.map Prod.fst
  | _ => []

/-- The artifacts written by a list of completed experiments, in write
order: a log file and a model file per record. -/
def artifactsOf : List LogData → FS
  | [] => []
  | r :: rest =>
    (logName r.experiment_id, .json (logJson r)) ::
    (modelName r.experiment_id, .pickle r.n_estimators r.experiment_id) ::
    artifactsOf rest

/-- Decimal value of a digit string, used to invert `natChars`. -/
def listVal (l : List Char) : Nat :=
  l.foldl (fun a c => 10 * a + (c.toNat - 48)) 0

/-- An environment with no failures and a fixed per-experiment score, used
to evaluate the pipeline on concrete inputs. -/
def sampleEnv : Env where
  hits := fun _ experiment_id => if experiment_id = 1 then ⟨24, by decide⟩ else ⟨27, by decide⟩
  fails := fun _ _ => false

/-- An environment whose second experiment raises during load/fit/score,
used to evaluate the failure path on concrete inputs. -/
def failEnv : Env where
  hits := fun _ _ => ⟨27, by decide⟩
  fails := fun _ experiment_id => experiment_id == 2

/-! Helper lemmas about the decimal rendering and filenames. -/

theorem digitChar_val {d : Nat} (h : d < 10) : (Nat.digitChar d).toNat - 48 = d := by
  interval_cases d <;> rfl

theorem listVal_append_digit (l : List Char) (c : Char) :
    listVal (l ++ [c]) = 10 * listVal l + (c.toNat - 48) := by
  simp [listVal, List.foldl_append]

theorem natCharsAux_val : ∀ fuel n : Nat, n < fuel → listVal (natCharsAux fuel n) = n := by
  intro fuel
  induction fuel with
  | zero => intro n h; exact absurd h (Nat.not_lt_zero n)
  | succ fuel ih =>
    intro n h
    by_cases h10 : n < 10
    · simp only [natCharsAux, if_pos h10, listVal, List.foldl_cons, List.foldl_nil]
      simpa using digitChar_val h10
    · have hn : 0 < n := by omega
      have hdiv : n / 10 < n := Nat.div_lt_self hn (by omega)
      have hfuel : n / 10 < fuel := by omega
      simp only [natCharsAux, if_neg h10]
      rw [listVal_append_digit, ih _ hfuel, digitChar_val (Nat.mod_lt n (by omega))]
      omega

theorem natChars_val (n : Nat) : listVal (natChars n) = n :=
  natCharsAux_val (n + 1) n (Nat.lt_succ_self n)

theorem natChars_inj {m n : Nat} (h : natChars m = natChars n) : m = n := by
  have h2 := congrArg listVal h
  rwa [natChars_val, natChars_val] at h2

theorem logName_inj {i j : Nat} (h : logName i = logName j) : i = j := by
  unfold logName at h
  exact natChars_inj (List.append_cancel_left (List.append_cancel_right h))

theorem modelName_inj {i j : Nat} (h : modelName i = modelName j) : i = j := by
  unfold modelName at h
  exact natChars_inj (List.append_cancel_left (List.append_cancel_right h))

theorem logName_head (i : Nat) : (logName i).head? = some 'l' := rfl

theorem modelName_head (i : Nat) : (modelName i).head? = some 'm' := rfl

theorem logName_ne_modelName (i j : Nat) : logName i ≠ modelName j := by
  intro h
  have h2 : some 'l' = some 'm' := (logName_head i).symm.trans (h ▸ modelName_head j)
  simp at h2

theorem summaryName_ne_logName (i : Nat) : summaryName ≠ logName i := by
  intro h
  have h2 : some 'e' = some 'l' := by
    have h3 : summaryName.head? = some 'e' := rfl
    exact h3.symm.trans (h ▸ logName_head i)
  simp at h2

theorem summaryName_ne_modelName (i : Nat) : summaryName ≠ modelName i := by
  intro h
  have h2 : some 'e' = some 'm' := by
    have h3 : summaryName.head? = some 'e' := rfl
    exact h3.symm.trans (h ▸ modelName_head i)
  simp at h2

/-! Helper lemmas about directory reads and writes. -/

theorem fsRead_fsWrite_self (fs : FS) (name : List Char) (f : File) :
    fsRead (fsWrite fs name f) name = some f := by
  induction fs with
  | nil => simp [fsWrite, fsRead]
  | cons p rest ih =>
    obtain ⟨n, g⟩ := p
    by_cases h : n = name
    · simp [fsWrite, h, fsRead]
    · simp [fsWrite, h, fsRead, ih]

theorem fsRead_fsWrite_ne (fs : FS) {name name2 : List Char} (f : File)
    (h : name ≠ name2) : fsRead (fsWrite fs name f) name2 = fsRead fs name2 := by
  induction fs with
  | nil =>
    simp only [fsWrite, fsRead]
    rw [if_neg h]
  | cons p rest ih =>
    obtain ⟨n, g⟩ := p
    by_cases hn : n = name
    · subst hn
      simp [fsWrite, fsRead, h, Ne.symm h]
    · by_cases hn2 : n = name2 <;>
        simp [fsWrite, hn, fsRead, hn2, ih, Ne.symm h]

theorem fsWrite_of_read_none {fs : FS} {name : List Char} (f : File)
    (h : fsRead fs name = none) : fsWrite fs name f = fs ++ [(name, f)] := by
  induction fs with
  | nil => simp [fsWrite]
  | cons p rest ih =>
    obtain ⟨n, g⟩ := p
    by_cases hn : n = name
    · simp [fsRead, hn] at h
    · simp only [fsRead, if_neg hn] at h
      simp [fsWrite, hn, ih h]

theorem fsRead_append_of_none {fs1 : FS} (fs2 : FS) {name : List Char}
    (h : fsRead fs1 name = none) : fsRead (fs1 ++ fs2) name = fsRead fs2 name := by
  induction fs1 with
  | nil => simp
  | cons p rest ih =>
    obtain ⟨n, g⟩ := p
    by_cases hn : n = name
    · simp [fsRead, hn] at h
    · simp only [fsRead, if_neg hn] at h
      simpa [fsRead, hn] using ih h

theorem fsRead_append_of_some {fs1 : FS} (fs2 : FS) {name : List Char} {f : File}
    (h : fsRead fs1 name = some f) : fsRead (fs1 ++ fs2) name = some f := by
  induction fs1 with
  | nil => simp [fsRead] at h
  | cons p rest ih =>
    obtain ⟨n, g⟩ := p
    by_cases hn : n = name
    · simp only [fsRead, if_pos hn] at h
      simp [fsRead, hn, h]
    · simp only [fsRead, if_neg hn] at h
      simpa [fsRead, hn] using ih h

/-! Helper lemmas about the filename filter. -/

theorem isPrefixChars_append (l t : List Char) : isPrefixChars l (l ++ t) = true := by
  induction l with
  | nil => rfl
  | cons a as ih => simp [isPrefixChars, ih]

theorem isSuffixChars_append (post s : List Char) : isSuffixChars post (s ++ post) = true := by
  simp [isSuffixChars, List.reverse_append, isPrefixChars_append]

theorem isSuffixChars_json_pkl (x : List Char) :
    isSuffixChars ".json".data (x ++ ".pkl".data) = false := by
  simp only [isSuffixChars, List.reverse_append]
  rfl

theorem isLogFileName_logName (i : Nat) : isLogFileName (logName i) = true := by
  unfold isLogFileName
  have h1 : isPrefixChars "log_".data (logName i) = true := by
    have e : logName i = "log_".data ++ (natChars i ++ ".json".data) := by
      simp [logName, List.append_assoc]
    rw [e]
    exact isPrefixChars_append _ _
  have h2 : isSuffixChars ".json".data (logName i) = true := by
    have e : logName i = ("log_".data ++ natChars i) ++ ".json".data := rfl
    rw [e]
    exact isSuffixChars_append _ _
  simp [h1, h2]

theorem isLogFileName_modelName (i : Nat) : isLogFileName (modelName i) = false := by
  unfold isLogFileName
  have h2 : isSuffixChars ".json".data (modelName i) = false := by
    have e : modelName i = ("model_".data ++ natChars i) ++ ".pkl".data := rfl
    rw [e]
    exact isSuffixChars_json_pkl _
  simp [h2]

theorem isLogFileName_summaryName : isLogFileName summaryName = false := rfl

/-! Helper lemmas about `run_experiment`. -/

theorem run_experiment_of_fails {env : Env} {n id : Nat} (fs : FS)
    (h : env.fails n id = true) : run_experiment env n id fs = .error () := by
  simp [run_experiment, h]

theorem run_experiment_of_ok {env : Env} {n id : Nat} (fs : FS)
    (h : env.fails n id = false) :
    run_experiment env n id fs =
      .ok ({ experiment_id := id, n_estimators := n,
             accuracy := heldOutAccuracy env n id },
           fsWrite
             (fsWrite fs (logName id)
               (.json (logJson { experiment_id := id, n_estimators := n,
                                 accuracy := heldOutAccuracy env n id })))
             (modelName id) (.pickle n id)) := by
  simp [run_experiment, h]

theorem run_experiment_ok_elim {env : Env} {n id : Nat} {fs fs2 : FS} {r : LogData}
    (h : run_experiment env n id fs = .ok (r, fs2)) :
    env.fails n id = false ∧
    r = { experiment_id := id, n_estimators := n,
          accuracy := heldOutAccuracy env n id } ∧
    fs2 = fsWrite (fsWrite fs (logName id) (.json (logJson r)))
            (modelName id) (.pickle n id) := by
  by_cases hf : env.fails n id
  · rw [run_experiment_of_fails fs hf] at h
    exact absurd h (by simp)
  · rw [run_experiment_of_ok fs (by simpa using hf)] at h
    have h2 := h
    simp only [Except.ok.injEq, Prod.mk.injEq] at h2
    obtain ⟨hr, hfs⟩ := h2
    refine ⟨by simpa using hf, hr.symm, ?_⟩
    rw [hfs.symm, hr]

/-! Helper lemmas about the artifacts of completed experiments. -/

theorem fsRead_artifactsOf_summaryName (logs : List LogData) :
    fsRead (artifactsOf logs) summaryName = none := by
  induction logs with
  | nil => rfl
  | cons r rest ih =>
    simp [artifactsOf, fsRead, Ne.symm (summaryName_ne_logName r.experiment_id),
      Ne.symm (summaryName_ne_modelName r.experiment_id), ih]

theorem fsRead_artifactsOf_logName (logs : List LogData) (j : Nat)
    (h : j ∉ logs.map LogData.experiment_id) :
    fsRead (artifactsOf logs) (logName j) = none := by
  induction logs with
  | nil => rfl
  | cons r rest ih =>
    simp only [List.map_cons, List.mem_cons, not_or] at h
    have hne : logName r.experiment_id ≠ logName j := fun hEq => h.1 (logName_inj hEq).symm
    simp [artifactsOf, fsRead, hne, (logName_ne_modelName j r.experiment_id).symm, ih h.2]

theorem fsRead_artifactsOf_modelName (logs : List LogData) (j : Nat)
    (h : j ∉ logs.map LogData.experiment_id) :
    fsRead (artifactsOf logs) (modelName j) = none := by
  induction logs with
  | nil => rfl
  | cons r rest ih =>
    simp only [List.map_cons, List.mem_cons, not_or] at h
    have hne : modelName r.experiment_id ≠ modelName j := fun hEq => h.1 (modelName_inj hEq).symm
    simp [artifactsOf, fsRead, hne, logName_ne_modelName r.experiment_id j, ih h.2]

theorem filter_listdir_artifactsOf (logs : List LogData) (tail : FS) :
    (listdir (artifactsOf logs ++ tail)).filter isLogFileName =
      logs.map (fun r => logName r.experiment_id) ++
      (listdir tail).filter isLogFileName := by
  induction logs with
  | nil => rfl
  | cons r rest ih =>
    simp [artifactsOf, listdir, List.filter, isLogFileName_logName,
      isLogFileName_modelName] at ih ⊢
    exact ih

/-! Driver loop characterizations. -/

theorem driverLoop_ids : ∀ (values : List Nat) (env : Env) (i : Nat) (fs fs2 : FS)
    (logs : List LogData), driverLoop env i values fs = (fs2, .ok logs) →
    logs.map (fun r => (r.experiment_id, r.n_estimators)) =
      (List.range' (i + 1) values.length).zip values := by
  intro values
  induction values with
  | nil =>
    intro env i fs fs2 logs h
    simp only [driverLoop, Prod.mk.injEq, Except.ok.injEq] at h
    simp [← h.2]
  | cons n rest ih =>
    intro env i fs fs2 logs h
    simp only [driverLoop] at h
    cases hr : run_experiment env n (i + 1) fs with
    | error e =>
      rw [hr] at h
      simp at h
    | ok p =>
      obtain ⟨log, fs1⟩ := p
      rw [hr] at h
      dsimp only at h
      obtain ⟨hfail, hlog, hfs1⟩ := run_experiment_ok_elim hr
      cases hd : driverLoop env (i + 1) rest fs1 with
      | mk fsr res =>
        rw [hd] at h
        cases res with
        | error e => simp at h
        | ok logs2 =>
          simp only [Prod.mk.injEq, Except.ok.injEq] at h
          obtain ⟨hfs2, hlogs⟩ := h
          subst hlogs
          have hrec := ih env (i + 1) fs1 fsr logs2 hd
          simp only [List.map_cons, List.length_cons, List.range', List.zip_cons_cons, hlog,
            List.cons.injEq]
          exact ⟨trivial, hrec⟩

theorem driverLoop_ok_fs : ∀ (values : List Nat) (env : Env) (i : Nat) (fs fs2 : FS)
    (logs : List LogData),
    (∀ j, i < j → fsRead fs (logName j) = none ∧ fsRead fs (modelName j) = none) →
    driverLoop env i values fs = (fs2, .ok logs) →
    fs2 = fs ++ artifactsOf logs := by
  intro values
  induction values with
  | nil =>
    intro env i fs fs2 logs _ h
    simp only [driverLoop, Prod.mk.injEq, Except.ok.injEq] at h
    simp [← h.1, ← h.2, artifactsOf]
  | cons n rest ih =>
    intro env i fs fs2 logs hfresh h
    simp only [driverLoop] at h
    cases hr : run_experiment env n (i + 1) fs with
    | error e =>
      rw [hr] at h
      simp at h
    | ok p =>
      obtain ⟨log, fs1⟩ := p
      rw [hr] at h
      dsimp only at h
      obtain ⟨hfail, hlog, hfs1⟩ := run_experiment_ok_elim hr
      have hlogNone : fsRead fs (logName (i + 1)) = none :=
        (hfresh (i + 1) (Nat.lt_succ_self i)).1
      have hmodNone : fsRead fs (modelName (i + 1)) = none :=
        (hfresh (i + 1) (Nat.lt_succ_self i)).2
      have hmodNone2 :
          fsRead (fs ++ [(logName (i + 1), File.json (logJson log))]) (modelName (i + 1)) = none := by
        rw [fsRead_append_of_none _ hmodNone]
        simp [fsRead, logName_ne_modelName (i + 1) (i + 1)]
      have hfs1e : fs1 = fs ++ [(logName (i + 1), File.json (logJson log)),
          (modelName (i + 1), File.pickle n (i + 1))] := by
        rw [hfs1, fsWrite_of_read_none _ hlogNone, fsWrite_of_read_none _ hmodNone2]
        simp
      have hfresh1 : ∀ j, i + 1 < j →
          fsRead fs1 (logName j) = none ∧ fsRead fs1 (modelName j) = none := by
        intro j hj
        have hfj := hfresh j (Nat.lt_of_succ_lt hj)
        have hne1 : logName (i + 1) ≠ logName j :=
          fun hEq => Nat.ne_of_lt hj (logName_inj hEq)
        have hne2 : modelName (i + 1) ≠ logName j :=
          (logName_ne_modelName j (i + 1)).symm
        have hne3 : logName (i + 1) ≠ modelName j :=
          logName_ne_modelName (i + 1) j
        have hne4 : modelName (i + 1) ≠ modelName j :=
          fun hEq => Nat.ne_of_lt hj (modelName_inj hEq)
        constructor
        · rw [hfs1e, fsRead_append_of_none _ hfj.1]
          simp [fsRead, hne1, hne2]
        · rw [hfs1e, fsRead_append_of_none _ hfj.2]
          simp [fsRead, hne3, hne4]
      cases hd : driverLoop env (i + 1) rest fs1 with
      | mk fsr res =>
        rw [hd] at h
        cases res with
        | error e => simp at h
        | ok logs2 =>
          simp only [Prod.mk.injEq, Except.ok.injEq] at h
          obtain ⟨hfs2, hlogs⟩ := h
          subst hlogs
          have hrec := ih env (i + 1) fs1 fsr logs2 hfresh1 hd
          rw [← hfs2, hrec, hfs1e, hlog]
          simp [artifactsOf]

theorem driverLoop_error : ∀ (values : List Nat) (k : Nat) (env : Env) (i : Nat) (fs : FS)
    (hk : k < values.length),
    env.fails (values.get ⟨k, hk⟩) (i + k + 1) = true →
    (∀ j (hj : j < k), env.fails (values.get ⟨j, hj.trans hk⟩) (i + j + 1) = false) →
    ∃ fs2 logs, driverLoop env i values fs = (fs2, .error ()) ∧
      driverLoop env i (values.take k) fs = (fs2, .ok logs) := by
  intro values
  induction values with
  | nil =>
    intro k env i fs hk
    exact absurd hk (by simp)
  | cons n rest ih =>
    intro k env i fs hk hfail hok
    cases k with
    | zero =>
      have hf : env.fails n (i + 1) = true := by simpa using hfail
      refine ⟨fs, [], ?_, by simp [driverLoop]⟩
      simp [driverLoop, run_experiment_of_fails fs hf]
    | succ k =>
      have h0 : env.fails n (i + 1) = false := by simpa using hok 0 (Nat.succ_pos k)
      have hfail2 : env.fails (rest.get ⟨k, Nat.lt_of_succ_lt_succ hk⟩) (i + 1 + k + 1) = true := by
        have harg : i + 1 + k + 1 = i + (k + 1) + 1 := by omega
        rw [harg]
        exact hfail
      have hok2 : ∀ j (hj : j < k),
          env.fails (rest.get ⟨j, hj.trans (Nat.lt_of_succ_lt_succ hk)⟩) (i + 1 + j + 1) = false := by
        intro j hj
        have harg : i + 1 + j + 1 = i + (j + 1) + 1 := by omega
        rw [harg]
        exact hok (j + 1) (Nat.succ_lt_succ hj)
      obtain ⟨fs2, logs, hloop, htake⟩ := ih k env (i + 1)
        (fsWrite (fsWrite fs (logName (i + 1))
            (.json (logJson { experiment_id := i + 1, n_estimators := n,
                              accuracy := heldOutAccuracy env n (i + 1) })))
          (modelName (i + 1)) (.pickle n (i + 1)))
        (Nat.lt_of_succ_lt_succ hk) hfail2 hok2
      refine ⟨fs2, { experiment_id := i + 1, n_estimators := n,
                     accuracy := heldOutAccuracy env n (i + 1) } :: logs, ?_, ?_⟩
      · simp only [driverLoop, run_experiment_of_ok fs h0]
        rw [hloop]
      · simp only [List.take_succ_cons, driverLoop, run_experiment_of_ok fs h0]
        rw [htake]

/-! The aggregator re-read on the artifacts of a clean completed run. -/

theorem readLogs_artifactsOf (fs : FS) : ∀ (logs : List LogData) (pre post : FS),
    fs = pre ++ artifactsOf logs ++ post →
    (∀ r ∈ logs, fsRead pre (logName r.experiment_id) = none) →
    (logs.map LogData.experiment_id).Nodup →
    readLogs fs (logs.map (fun r => logName r.experiment_id)) = some (logs.map logJson) := by
  intro logs
  induction logs with
  | nil =>
    intro pre post _ _ _
    rfl
  | cons r rest ih =>
    intro pre post hfs hpre hnd
    simp only [List.map_cons, List.nodup_cons] at hnd
    have hread : readJson fs (logName r.experiment_id) = some (logJson r) := by
      have hpre0 : fsRead pre (logName r.experiment_id) = none :=
        hpre r (List.mem_cons_self r rest)
      have hmid : fsRead (pre ++ artifactsOf (r :: rest)) (logName r.experiment_id) =
          some (.json (logJson r)) := by
        rw [fsRead_append_of_none _ hpre0]
        simp [artifactsOf, fsRead]
      rw [hfs]
      unfold readJson
      rw [fsRead_append_of_some _ hmid]
    have hih : readLogs fs (rest.map (fun r2 => logName r2.experiment_id)) =
        some (rest.map logJson) := by
      apply ih (pre ++ [(logName r.experiment_id, .json (logJson r)),
        (modelName r.experiment_id, .pickle r.n_estimators r.experiment_id)]) post
      · rw [hfs]
        simp [artifactsOf, List.append_assoc]
      · intro r2 hr2
        have hpre2 : fsRead pre (logName r2.experiment_id) = none :=
          hpre r2 (List.mem_cons_of_mem r hr2)
        have hne1 : logName r.experiment_id ≠ logName r2.experiment_id := by
          intro hEq
          exact hnd.1 ((logName_inj hEq) ▸ List.mem_map_of_mem LogData.experiment_id hr2)
        have hne2 : modelName r.experiment_id ≠ logName r2.experiment_id :=
          (logName_ne_modelName r2.experiment_id r.experiment_id).symm
        rw [fsRead_append_of_none _ hpre2]
        simp [fsRead, hne1, hne2]
      · exact hnd.2
    simp only [List.map_cons, readLogs, hread, hih]

/-! Composite characterizations used by the claims. -/

theorem driverLoop_eids {env : Env} {values : List Nat} {fs fs2 : FS} {logs : List LogData}
    (h : driverLoop env 0 values fs = (fs2, .ok logs)) :
    logs.map LogData.experiment_id = List.range' 1 values.length ∧
    logs.length = values.length := by
  have hmap := driverLoop_ids values env 0 fs fs2 logs h
  have hlen : logs.length = values.length := by
    have h2 := congrArg List.length hmap
    simpa [List.length_zip, List.length_range'] using h2
  refine ⟨?_, hlen⟩
  have hfst : List.map Prod.fst ((List.range' 1 values.length).zip values) =
      List.range' 1 values.length :=
    List.map_fst_zip _ _ (by rw [List.length_range'])
  have h2 := congrArg (List.map Prod.fst) hmap
  rw [List.map_map, hfst] at h2
  simpa [Function.comp] using h2

theorem runScript_clean_elim {env : Env} {values : List Nat} {fs2 : FS} {logs : List LogData}
    (h : runScript env values [] = (fs2, .ok logs)) :
    driverLoop env 0 values [] = (artifactsOf logs, .ok logs) ∧
    fs2 = artifactsOf logs ++ [(summaryName, .json (.jarr (logs.map logJson)))] := by
  unfold runScript at h
  cases hd : driverLoop env 0 values [] with
  | mk fs1 res =>
    rw [hd] at h
    cases res with
    | error e => simp at h
    | ok logs1 =>
      simp only [Prod.mk.injEq, Except.ok.injEq] at h
      obtain ⟨hw, hl⟩ := h
      subst hl
      have hfs1 : fs1 = artifactsOf logs1 := by
        have h2 := driverLoop_ok_fs values env 0 [] fs1 logs1
          (fun j _ => ⟨rfl, rfl⟩) hd
        simpa using h2
      subst hfs1
      refine ⟨rfl, ?_⟩
      rw [← hw, fsWrite_of_read_none _ (fsRead_artifactsOf_summaryName logs1)]

theorem readLogs_length {fs : FS} : ∀ {names : List (List Char)} {js : List Json},
    readLogs fs names = some js → js.length = names.length := by
  intro names
  induction names with
  | nil =>
    intro js h
    simp only [readLogs, Option.some.injEq] at h
    simp [← h]
  | cons name rest ih =>
    intro js h
    simp only [readLogs] at h
    cases h1 : readJson fs name with
    | none => rw [h1] at h; simp at h
    | some j =>
      rw [h1] at h
      cases h2 : readLogs fs rest with
      | none => rw [h2] at h; simp at h
      | some js2 =>
        rw [h2] at h
        simp only [Option.some.injEq] at h
        simp [← h, ih h2]

theorem rowsOfLogs_length : ∀ {js : List Json} {rows : List (Json × Json × Json)},
    rowsOfLogs js = some rows → rows.length = js.length := by
  intro js
  induction js with
  | nil =>
    intro rows h
    simp only [rowsOfLogs, Option.some.injEq] at h
    simp [← h]
  | cons j rest ih =>
    intro rows h
    simp only [rowsOfLogs] at h
    cases h1 : rowOfLog j with
    | none => rw [h1] at h; simp at h
    | some row =>
      rw [h1] at h
      cases h2 : rowsOfLogs rest with
      | none => rw [h2] at h; simp at h
      | some rows2 =>
        rw [h2] at h
        simp only [Option.some.injEq] at h
        simp [← h, ih h2]

theorem fsRead_fsWrite_isSome (fs : FS) (n2 : List Char) (v : File) (name : List Char)
    {f : File} (h : fsRead fs name = some f) :
    ∃ g, fsRead (fsWrite fs n2 v) name = some g := by
  by_cases hn : n2 = name
  · subst hn
    exact ⟨v, fsRead_fsWrite_self fs n2 v⟩
  · exact ⟨f, by rw [fsRead_fsWrite_ne fs v hn]; exact h⟩

theorem driverLoop_preserves : ∀ (values : List Nat) (env : Env) (i : Nat) (fs fs2 : FS)
    (out : Except Unit (List LogData)), driverLoop env i values fs = (fs2, out) →
    ∀ name f, fsRead fs name = some f → ∃ g, fsRead fs2 name = some g := by
  intro values
  induction values with
  | nil =>
    intro env i fs fs2 out h name f hf
    simp only [driverLoop, Prod.mk.injEq] at h
    exact ⟨f, h.1 ▸ hf⟩
  | cons n rest ih =>
    intro env i fs fs2 out h name f hf
    simp only [driverLoop] at h
    cases hr : run_experiment env n (i + 1) fs with
    | error e =>
      rw [hr] at h
      simp only [Prod.mk.injEq] at h
      exact ⟨f, h.1 ▸ hf⟩
    | ok p =>
      obtain ⟨log, fs1⟩ := p
      rw [hr] at h
      dsimp only at h
      obtain ⟨-, -, hfs1⟩ := run_experiment_ok_elim hr
      have hf1 : ∃ g, fsRead fs1 name = some g := by
        obtain ⟨g1, hg1⟩ := fsRead_fsWrite_isSome fs (logName (i + 1))
          (.json (logJson log)) name hf
        rw [hfs1]
        exact fsRead_fsWrite_isSome _ (modelName (i + 1)) (.pickle n (i + 1)) name hg1
      obtain ⟨g1, hg1⟩ := hf1
      cases hd : driverLoop env (i + 1) rest fs1 with
      | mk fsr res =>
        rw [hd] at h
        have hout : fs2 = fsr := by
          cases res with
          | error e => simp only [Prod.mk.injEq] at h; exact h.1.symm
          | ok logs2 => simp only [Prod.mk.injEq] at h; exact h.1.symm
        subst hout
        exact ih env (i + 1) fs1 fs2 res hd name g1 hg1

theorem runScript_preserves {env : Env} {values : List Nat} {fs fs2 : FS}
    {out : Except Unit (List LogData)} (h : runScript env values fs = (fs2, out)) :
    ∀ name f, fsRead fs name = some f → ∃ g, fsRead fs2 name = some g := by
  intro name f hf
  unfold runScript at h
  cases hd : driverLoop env 0 values fs with
  | mk fs1 res =>
    rw [hd] at h
    obtain ⟨g1, hg1⟩ := driverLoop_preserves values env 0 fs fs1 res hd name f hf
    cases res with
    | error e =>
      simp only [Prod.mk.injEq] at h
      exact ⟨g1, h.1 ▸ hg1⟩
    | ok logs1 =>
      simp only [Prod.mk.injEq] at h
      rw [← h.1]
      exact fsRead_fsWrite_isSome fs1 summaryName _ name hg1

theorem heldOutAccuracy_mem_unit (env : Env) (n id : Nat) :
    0 ≤ heldOutAccuracy env n id ∧ heldOutAccuracy env n id ≤ 1 := by
  unfold heldOutAccuracy
  rw [Rat.mkRat_eq_div]
  have hlt := (env.hits n id).isLt
  have h30 : ((env.hits n id : Nat) : ℚ) ≤ 30 := by
    exact_mod_cast Nat.lt_succ_iff.mp hlt
  have h0 : (0 : ℚ) ≤ ((env.hits n id : Nat) : ℚ) := by positivity
  constructor
  · positivity
  · rw [div_le_one (by norm_num)]
    push_cast
    push_cast at h30
    exact h30

theorem rowOfLog_logJson (r : LogData) :
    rowOfLog (logJson r) =
      some (.jint (r.experiment_id : Int), .jint (r.n_estimators : Int), .jfloat r.accuracy) := rfl

/-! The claims. -/

/-- C1: for every configured list of N hyperparameter values, the driver loop
invokes the runner once per value in list order; the i-th invocation
(1-based) receives experiment_id i together with the i-th configured
n_estimators value, and the experiment_id values assigned over the whole run
are exactly 1..N. -/
theorem claim_C1_driver_ids (env : Env) (values : List Nat) (fs fs2 : FS)
    (logs : List LogData) (h : driverLoop env 0 values fs = (fs2, .ok logs)) :
    logs.map (fun r => (r.experiment_id, r.n_estimators)) =
      (List.range' 1 values.length).zip values ∧
    logs.map LogData.experiment_id = List.range' 1 values.length :=
  ⟨driverLoop_ids values env 0 fs fs2 logs h, (driverLoop_eids h).1⟩

/-- Witness for C1: the pipeline on values [10, 50] with a concrete
environment assigns ids 1 and 2 to the two configured values, in order. -/
theorem claim_C1_driver_ids_witness :
    ([{ experiment_id := 1, n_estimators := 10, accuracy := mkRat 24 30 },
      { experiment_id := 2, n_estimators := 50, accuracy := mkRat 27 30 }] :
        List LogData).map (fun r => (r.experiment_id, r.n_estimators)) =
      (List.range' 1 2).zip [10, 50] ∧
    ([{ experiment_id := 1, n_estimators := 10, accuracy := mkRat 24 30 },
      { experiment_id := 2, n_estimators := 50, accuracy := mkRat 27 30 }] :
        List LogData).map LogData.experiment_id = List.range' 1 2 :=
  claim_C1_driver_ids sampleEnv [10, 50] [] (driverLoop sampleEnv 0 [10, 50] []).1
    [{ experiment_id := 1, n_estimators := 10, accuracy := mkRat 24 30 },
     { experiment_id := 2, n_estimators := 50, accuracy := mkRat 27 30 }] (by rfl)

/-- C2: every log artifact written by the runner, when re-read from the
directory and deserialized the way the aggregator does, yields the same
experiment_id, the same n_estimators under parameters, and the same accuracy
under metrics that were passed to the write. -/
theorem claim_C2_roundtrip (env : Env) (n id : Nat) (fs : FS) (r : LogData) (fs2 : FS)
    (h : run_experiment env n id fs = .ok (r, fs2)) :
    (readJson fs2 (logName id)).bind rowOfLog =
      some (.jint (r.experiment_id : Int), .jint (r.n_estimators : Int),
            .jfloat r.accuracy) := by
  obtain ⟨-, hlog, hfs2⟩ := run_experiment_ok_elim h
  have hread : fsRead fs2 (logName id) = some (.json (logJson r)) := by
    rw [hfs2, fsRead_fsWrite_ne _ _ (logName_ne_modelName id id).symm,
      fsRead_fsWrite_self]
  simp [readJson, hread, rowOfLog_logJson]

/-- Witness for C2: the artifact written by experiment 1 with value 10 in a
concrete environment reads back as id 1, value 10, accuracy 24/30. -/
theorem claim_C2_roundtrip_witness :
    (readJson
        (fsWrite
          (fsWrite [] (logName 1)
            (.json (logJson { experiment_id := 1, n_estimators := 10,
                              accuracy := mkRat 24 30 })))
          (modelName 1) (.pickle 10 1))
        (logName 1)).bind rowOfLog =
      some (.jint ((1 : Nat) : Int), .jint ((10 : Nat) : Int),
            .jfloat (mkRat 24 30)) :=
  claim_C2_roundtrip sampleEnv 10 1 []
    { experiment_id := 1, n_estimators := 10, accuracy := mkRat 24 30 }
    (fsWrite
      (fsWrite [] (logName 1)
        (.json (logJson { experiment_id := 1, n_estimators := 10,
                          accuracy := mkRat 24 30 })))
      (modelName 1) (.pickle 10 1)) (by rfl)

/-- C3: after a complete run from a clean directory, the summary artifact is
the array of the records returned by the runner in loop order, its record
count equals the number of configured values, and an empty configured list
produces a directory holding only the summary with an empty array. -/
theorem claim_C3_summary (env : Env) (values : List Nat) (fs2 : FS) (logs : List LogData)
    (h : runScript env values [] = (fs2, .ok logs)) :
    fsRead fs2 summaryName = some (.json (.jarr (logs.map logJson))) ∧
    logs.length = values.length ∧
    (values = [] → fs2 = [(summaryName, .json (.jarr []))]) := by
  obtain ⟨hloop, hfs2⟩ := runScript_clean_elim h
  refine ⟨?_, (driverLoop_eids hloop).2, ?_⟩
  · rw [hfs2, fsRead_append_of_none _ (fsRead_artifactsOf_summaryName logs)]
    simp [fsRead]
  · intro hv
    subst hv
    have h2 : ([] : FS) = artifactsOf logs ∧ ([] : List LogData) = logs := by
      have h3 := hloop
      simp only [driverLoop, Prod.mk.injEq, Except.ok.injEq] at h3
      exact h3
    obtain ⟨ha, hl⟩ := h2
    rw [hfs2, ← ha, ← hl]
    simp

/-- Witness for C3: a clean run over the single value 10 has a one-record
summary. -/
theorem claim_C3_summary_witness :
    ([{ experiment_id := 1, n_estimators := 10, accuracy := mkRat 24 30 }] :
      List LogData).length = ([10] : List Nat).length :=
  (claim_C3_summary sampleEnv [10] (runScript sampleEnv [10] []).1
    [{ experiment_id := 1, n_estimators := 10, accuracy := mkRat 24 30 }]
    (by rfl)).2.1

/-- C5: whenever the runner returns a record, its accuracy lies in the
closed interval from 0 to 1. -/
theorem claim_C5_accuracy_unit (env : Env) (n id : Nat) (fs : FS) (r : LogData) (fs2 : FS)
    (h : run_experiment env n id fs = .ok (r, fs2)) :
    0 ≤ r.accuracy ∧ r.accuracy ≤ 1 := by
  obtain ⟨-, hlog, -⟩ := run_experiment_ok_elim h
  rw [hlog]
  exact heldOutAccuracy_mem_unit env n id

/-- Witness for C5: a concrete run of experiment 1 has accuracy 24/30, which
lies in the unit interval. -/
theorem claim_C5_accuracy_unit_witness :
    (0 : ℚ) ≤ mkRat 24 30 ∧ (mkRat 24 30 : ℚ) ≤ 1 :=
  claim_C5_accuracy_unit sampleEnv 10 1 []
    { experiment_id := 1, n_estimators := 10, accuracy := mkRat 24 30 }
    (fsWrite
      (fsWrite [] (logName 1)
        (.json (logJson { experiment_id := 1, n_estimators := 10,
                          accuracy := mkRat 24 30 })))
      (modelName 1) (.pickle 10 1)) (by rfl)

/-- C6: every log artifact the runner writes is a JSON object with exactly
the top-level keys experiment_id, parameters and metrics; experiment_id and
the single parameters key n_estimators are integers, and the single metrics
key accuracy is a float. -/
theorem claim_C6_log_shape (env : Env) (n id : Nat) (fs : FS) (r : LogData) (fs2 : FS)
    (h : run_experiment env n id fs = .ok (r, fs2)) :
    ∃ j, fsRead fs2 (logName id) = some (.json j) ∧
      objKeys j = ["experiment_id".data, "parameters".data, "metrics".data] ∧
      jsonField j "experiment_id".data = some (.jint (id : Int)) ∧
      (∃ p, jsonField j "parameters".data = some p ∧
        objKeys p = ["n_estimators".data] ∧
        jsonField p "n_estimators".data = some (.jint (n : Int))) ∧
      (∃ m, jsonField j "metrics".data = some m ∧
        objKeys m = ["accuracy".data] ∧
        ∃ q : ℚ, jsonField m "accuracy".data = some (.jfloat q)) := by
  obtain ⟨-, hlog, hfs2⟩ := run_experiment_ok_elim h
  subst hlog
  refine ⟨logJson { experiment_id := id, n_estimators := n,
                    accuracy := heldOutAccuracy env n id }, ?_, rfl, rfl,
    ⟨.jobj [("n_estimators".data, .jint (n : Int))], rfl, rfl, rfl⟩,
    ⟨.jobj [("accuracy".data, .jfloat (heldOutAccuracy env n id))], rfl, rfl,
      heldOutAccuracy env n id, rfl⟩⟩
  rw [hfs2, fsRead_fsWrite_ne _ _ (logName_ne_modelName id id).symm,
    fsRead_fsWrite_self]

/-- Witness for C6: the concrete artifact of experiment 1 with value 10 has
exactly the required shape. -/
theorem claim_C6_log_shape_witness :
    ∃ j, fsRead
        (fsWrite
          (fsWrite [] (logName 1)
            (.json (logJson { experiment_id := 1, n_estimators := 10,
                              accuracy := mkRat 24 30 })))
          (modelName 1) (.pickle 10 1))
        (logName 1) = some (.json j) ∧
      objKeys j = ["experiment_id".data, "parameters".data, "metrics".data] ∧
      jsonField j "experiment_id".data = some (.jint ((1 : Nat) : Int)) ∧
      (∃ p, jsonField j "parameters".data = some p ∧
        objKeys p = ["n_estimators".data] ∧
        jsonField p "n_estimators".data = some (.jint ((10 : Nat) : Int))) ∧
      (∃ m, jsonField j "metrics".data = some m ∧
        objKeys m = ["accuracy".data] ∧
        ∃ q : ℚ, jsonField m "accuracy".data = some (.jfloat q)) :=
  claim_C6_log_shape sampleEnv 10 1 []
    { experiment_id := 1, n_estimators := 10, accuracy := mkRat 24 30 }
    (fsWrite
      (fsWrite [] (logName 1)
        (.json (logJson { experiment_id := 1, n_estimators := 10,
                          accuracy := mkRat 24 30 })))
      (modelName 1) (.pickle 10 1)) (by rfl)

/-- C7: for a clean directory and a complete run, the list of records the
aggregator re-reads from the individual log artifacts has the same content
as the in-memory list accumulated by the driver loop, as multisets. -/
theorem claim_C7_reread_matches (env : Env) (values : List Nat) (fs2 : FS)
    (logs : List LogData) (h : runScript env values [] = (fs2, .ok logs)) :
    ∃ js, experimentLogs fs2 = some js ∧ js.Perm (logs.map logJson) := by
  obtain ⟨hloop, hfs2⟩ := runScript_clean_elim h
  refine ⟨logs.map logJson, ?_, List.Perm.refl _⟩
  rw [hfs2]
  unfold experimentLogs
  rw [filter_listdir_artifactsOf]
  have htail : (listdir ([(summaryName, File.json (.jarr (logs.map logJson)))] : FS)).filter
      isLogFileName = [] := by
    simp [listdir, List.filter, isLogFileName_summaryName]
  rw [htail, List.append_nil]
  apply readLogs_artifactsOf _ logs []
    [(summaryName, File.json (.jarr (logs.map logJson)))]
  · simp
  · intro r _
    rfl
  · rw [(driverLoop_eids hloop).1]
    exact List.nodup_range' 1 values.length

/-- Witness for C7: the clean single-value run re-reads exactly its one
record. -/
theorem claim_C7_reread_matches_witness :
    ∃ js, experimentLogs (runScript sampleEnv [10] []).1 = some js ∧
      js.Perm (([{ experiment_id := 1, n_estimators := 10, accuracy := mkRat 24 30 }] :
        List LogData).map logJson) :=
  claim_C7_reread_matches sampleEnv [10] (runScript sampleEnv [10] []).1
    [{ experiment_id := 1, n_estimators := 10, accuracy := mkRat 24 30 }] (by rfl)

/-- C8: if the runner raises at the (k+1)-st experiment, the failure
propagates out of the driver loop, no summary artifact is written, and the
directory holds exactly the log and model artifacts of the earlier completed
experiments, unchanged with no cleanup. -/
theorem claim_C8_failure (env : Env) (values : List Nat) (k : Nat)
    (hk : k < values.length)
    (hfail : env.fails (values.get ⟨k, hk⟩) (k + 1) = true)
    (hok : ∀ j (hj : j < k), env.fails (values.get ⟨j, hj.trans hk⟩) (j + 1) = false) :
    ∃ fs2 logs, runScript env values [] = (fs2, .error ()) ∧
      driverLoop env 0 (values.take k) [] = (fs2, .ok logs) ∧
      fs2 = artifactsOf logs ∧ fsRead fs2 summaryName = none := by
  have hfail0 : env.fails (values.get ⟨k, hk⟩) (0 + k + 1) = true := by
    simpa using hfail
  have hok0 : ∀ j (hj : j < k),
      env.fails (values.get ⟨j, hj.trans hk⟩) (0 + j + 1) = false := by
    intro j hj
    simpa using hok j hj
  obtain ⟨fs2, logs, herr, htake⟩ := driverLoop_error values k env 0 [] hk hfail0 hok0
  have hart : fs2 = artifactsOf logs := by
    have h2 := driverLoop_ok_fs (values.take k) env 0 [] fs2 logs
      (fun j _ => ⟨rfl, rfl⟩) htake
    simpa using h2
  refine ⟨fs2, logs, ?_, htake, hart, ?_⟩
  · unfold runScript
    rw [herr]
  · rw [hart]
    exact fsRead_artifactsOf_summaryName logs

/-- Witness for C8: with an environment that raises at experiment 2, the run
over [10, 50, 100] aborts after experiment 1 with no summary on disk. -/
theorem claim_C8_failure_witness :
    ∃ fs2 logs, runScript failEnv [10, 50, 100] [] = (fs2, .error ()) ∧
      driverLoop failEnv 0 ([10, 50, 100].take 1) [] = (fs2, .ok logs) ∧
      fs2 = artifactsOf logs ∧ fsRead fs2 summaryName = none :=
  claim_C8_failure failEnv [10, 50, 100] 1 (by decide) (by rfl)
    (fun j hj => by interval_cases j; rfl)

/-- C4: the aggregator builds its table exclusively from the files of the
directory whose names match the log_*.json convention, one row per such
file, regardless of the in-memory records; concretely, running the script
over [10, 50] and then over the shorter list [10] on the same directory
leaves the stale log of experiment 2, and the table of the second run gains
a row for it. -/
theorem claim_C4_table_from_files :
    (∀ fs rows, tableRows fs = some rows →
        rows.length = ((listdir fs).filter isLogFileName).length) ∧
    tableRows (runScript sampleEnv [10] (runScript sampleEnv [10, 50] []).1).1 =
      some [(.jint 1, .jint 10, .jfloat (mkRat 24 30)),
            (.jint 2, .jint 50, .jfloat (mkRat 27 30))] := by
  constructor
  · intro fs rows h
    unfold tableRows at h
    cases hE : experimentLogs fs with
    | none =>
      rw [hE] at h
      simp at h
    | some js =>
      rw [hE] at h
      unfold experimentLogs at hE
      rw [rowsOfLogs_length h, readLogs_length hE]
  · rfl

/-- Witness for C4: after the clean run over the single value 10 the table
has exactly one row, matching the one log file in the directory. -/
theorem claim_C4_table_from_files_witness :
    ([((.jint 1 : Json), (.jint 10 : Json), (.jfloat (mkRat 24 30) : Json))] :
      List (Json × Json × Json)).length =
      ((listdir (runScript sampleEnv [10] []).1).filter isLogFileName).length :=
  claim_C4_table_from_files.1 (runScript sampleEnv [10] []).1
    [(.jint 1, .jint 10, .jfloat (mkRat 24 30))] (by rfl)

/-- C9: a runner invocation with experiment_id k writes exactly the two
files log_k.json and model_k.pkl, overwriting same-named prior artifacts and
leaving every other file unchanged; and no stage of the pipeline ever
deletes a file. -/
theorem claim_C9_frame :
    (∀ (env : Env) (n id : Nat) (fs : FS) (r : LogData) (fs2 : FS),
      run_experiment env n id fs = .ok (r, fs2) →
      fsRead fs2 (logName id) = some (.json (logJson r)) ∧
      fsRead fs2 (modelName id) = some (.pickle n id) ∧
      ∀ name, name ≠ logName id → name ≠ modelName id →
        fsRead fs2 name = fsRead fs name) ∧
    (∀ (env : Env) (values : List Nat) (fs fs2 : FS)
      (out : Except Unit (List LogData)), runScript env values fs = (fs2, out) →
      ∀ name f, fsRead fs name = some f → ∃ g, fsRead fs2 name = some g) := by
  constructor
  · intro env n id fs r fs2 h
    obtain ⟨-, hlog, hfs2⟩ := run_experiment_ok_elim h
    refine ⟨?_, ?_, ?_⟩
    · rw [hfs2, fsRead_fsWrite_ne _ _ (logName_ne_modelName id id).symm,
        fsRead_fsWrite_self]
    · rw [hfs2, fsRead_fsWrite_self]
    · intro name hn1 hn2
      rw [hfs2, fsRead_fsWrite_ne _ _ (Ne.symm hn2), fsRead_fsWrite_ne _ _ (Ne.symm hn1)]
  · intro env values fs fs2 out h
    exact runScript_preserves h

/-- Witness for C9: the concrete write of experiment 1 leaves an unrelated
pre-existing file untouched. -/
theorem claim_C9_frame_witness :
    fsRead
      (fsWrite
        (fsWrite [(summaryName, File.json (.jarr []))] (logName 1)
          (.json (logJson { experiment_id := 1, n_estimators := 10,
                            accuracy := mkRat 24 30 })))
        (modelName 1) (.pickle 10 1))
      summaryName = fsRead [(summaryName, File.json (.jarr []))] summaryName :=
  ((claim_C9_frame.1 sampleEnv 10 1 [(summaryName, File.json (.jarr []))]
    { experiment_id := 1, n_estimators := 10, accuracy := mkRat 24 30 }
    (fsWrite
      (fsWrite [(summaryName, File.json (.jarr []))] (logName 1)
        (.json (logJson { experiment_id := 1, n_estimators := 10,
                          accuracy := mkRat 24 30 })))
      (modelName 1) (.pickle 10 1)) (by rfl)).2.2) summaryName
    (summaryName_ne_logName 1) (summaryName_ne_modelName 1)

/-- C10: the aggregator filename filter never selects the summary artifact
nor any model artifact produced by the pipeline, while it selects every
per-experiment log artifact name. -/
theorem claim_C10_filter_selectivity :
    (∀ id, isLogFileName (modelName id) = false) ∧
    isLogFileName summaryName = false ∧
    (∀ id, isLogFileName (logName id) = true) :=
  ⟨isLogFileName_modelName, isLogFileName_summaryName, isLogFileName_logName⟩
